import Mathlib

/-!
Verification of the TinyEmbree benchmark driver (`Core/cbench.cpp`).

A shallow embedding of the benchmark driver in `src/Core/cbench.cpp`.

The driver calls an external raytracing engine through an opaque handle
(`InitScene`, `AddTriangleMesh`, `FinalizeScene`, `TraceSingle`,
`DeleteScene`) and the C library (`std::srand`, `std::rand`,
`std::chrono`).  We model:

* the C library generator as a draw stream `s : ℕ → ℕ`, where `s n` is
  the value of the `n`-th call to `std::rand()` after the seeding call;
  the C standard guarantees `s n ≤ RAND_MAX` and leaves `RAND_MAX`
  implementation defined (`RAND_MAX ≥ 32767`).  `RM` stands for
  `RAND_MAX` throughout.  Code using the generator threads an explicit
  draw counter `k`;
* `float` arithmetic by exact rational arithmetic (the only division the
  driver performs is `rand()/RAND_MAX`, and the boundary case
  `RAND_MAX/RAND_MAX = 1` is exact in floating point as well);
* wall-clock readings as externally chosen inputs: the two measured
  elapsed-millisecond values are parameters of the report computation;
* the sequence of external calls made by `main` as a list of events,
  parametrised by the handle value the engine returned.
-/

namespace CBench

/-- Modelled from the spec: `Vector3` from `raytrace.h` (not under `src/`),
three floating-point components x, y, z; components are modelled as exact
rationals. -/
structure Vector3 where
  x : ℚ
  y : ℚ
  z : ℚ
deriving DecidableEq, Repr

/-- Modelled from the spec: `Ray` from `raytrace.h` (not under `src/`):
origin (`Vector3`), direction (`Vector3`), and a scalar time-or-parameter
field; `main` brace-initialises the three fields in this order. -/
structure Ray where
  org : Vector3
  dir : Vector3
  tparam : ℚ
deriving DecidableEq, Repr

/-- Modelled from the spec: `Hit` from `raytrace.h` (not under `src/`), an
output record whose fields are opaque to the driver; the driver only needs
a valid writable instance per call, so we model it as an opaque token. -/
structure Hit where
  mk ::
deriving DecidableEq, Repr

/-- A freshly declared (default) `Hit` record, as in `Hit hit;`. -/
def Hit.fresh : Hit := ⟨⟩

/-- The function `NextRandom3` from `cbench.cpp`: three successive `std::rand()` draws,
each divided by `RAND_MAX`.  Takes the draw stream `s`, the current draw
counter `k`, and returns the vector together with the advanced counter. -/
def NextRandom3 (RM : ℕ) (s : ℕ → ℕ) (k : ℕ) : Vector3 × ℕ :=
  (⟨(s k : ℚ) / (RM : ℚ), (s (k + 1) : ℚ) / (RM : ℚ), (s (k + 2) : ℚ) / (RM : ℚ)⟩, k + 3)

/-- The ray built by one Phase A iteration whose first draw has index `k`:
`Ray { NextRandom3(), NextRandom3(), 0.0f }`. -/
def rayAt (RM : ℕ) (s : ℕ → ℕ) (k : ℕ) : Ray :=
  let o := NextRandom3 RM s k
  let d := NextRandom3 RM s o.2
  ⟨o.1, d.1, 0⟩

/-- One external call made by `main`, parametrised by the engine's opaque
handle type.  `srand` is the C-library seeding call; it is recorded in the
trace because the ordering of seeding versus tracing is specified. -/
inductive Event (Handle : Type) where
  | initScene (ret : Handle)
  | addTriangleMesh (h : Handle) (vertices : List ℚ) (numV : ℕ)
      (indices : List ℤ) (numI : ℕ) (ret : ℤ)
  | finalizeScene (h : Handle)
  | srand (seed : ℤ)
  | traceSingle (h : Handle) (ray : Ray) (hit : Hit)
  | deleteScene (h : Handle)
deriving DecidableEq

/-- The literal vertex buffer of `main`: 4 vertices of the quad, 3 floats
per vertex, 12 floats total. -/
def vertexBuffer : List ℚ :=
  [-1, 0, -1,
    1, 0, -1,
    1, 0,  1,
   -1, 0,  1]

/-- The literal index buffer of `main`: 2 triangles, 3 indices per
triangle, 6 ints total. -/
def indexBuffer : List ℤ :=
  [0, 1, 2,
   0, 2, 3]

/-- The value of `numTrials` in `main`. -/
def numTrials : ℕ := 10

/-- The inner loop bound of both phases: one million rays per trial. -/
def raysPerTrial : ℕ := 1000000

/-- The inner loop of Phase A: `n` iterations, each constructing a fresh
`Ray` from two `NextRandom3` calls starting at draw counter `k` and a fresh
`Hit`, then calling `TraceSingle`.  Returns the emitted trace events in
order together with the advanced draw counter. -/
def innerLoopA {Handle : Type} (h : Handle) (RM : ℕ) (s : ℕ → ℕ) :
    ℕ → ℕ → List (Event Handle) × ℕ
  | 0, k => ([], k)
  | n + 1, k =>
      let o := NextRandom3 RM s k
      let d := NextRandom3 RM s o.2
      let rest := innerLoopA h RM s n d.2
      (Event.traceSingle h ⟨o.1, d.1, 0⟩ Hit.fresh :: rest.1, rest.2)

/-- Phase A: `t` trials of `raysPerTrial` inner iterations each, threading
the draw counter across trials. -/
def phaseA {Handle : Type} (h : Handle) (RM : ℕ) (s : ℕ → ℕ) :
    ℕ → ℕ → List (Event Handle) × ℕ
  | 0, k => ([], k)
  | t + 1, k =>
      let fst := innerLoopA h RM s raysPerTrial k
      let rest := phaseA h RM s t fst.2
      (fst.1 ++ rest.1, rest.2)

/-- The inner loop of Phase B: `n` iterations, each evaluating
`NextRandom3(); NextRandom3();` — the two vectors a ray would need — and
discarding them without any engine call.  We record the generated pairs and
the advanced draw counter. -/
def innerLoopB (RM : ℕ) (s : ℕ → ℕ) :
    ℕ → ℕ → List (Vector3 × Vector3) × ℕ
  | 0, k => ([], k)
  | n + 1, k =>
      let o := NextRandom3 RM s k
      let d := NextRandom3 RM s o.2
      let rest := innerLoopB RM s n d.2
      ((o.1, d.1) :: rest.1, rest.2)

/-- Phase B: `t` trials of `raysPerTrial` RNG-only iterations each. -/
def phaseB (RM : ℕ) (s : ℕ → ℕ) :
    ℕ → ℕ → List (Vector3 × Vector3) × ℕ
  | 0, k => ([], k)
  | t + 1, k =>
      let fst := innerLoopB RM s raysPerTrial k
      let rest := phaseB RM s t fst.2
      (fst.1 ++ rest.1, rest.2)

/-- The full sequence of external calls made by `main`, in program order:
create the scene, register the quad (passing
`sizeof(vertices)/sizeof(float) = 12` and `sizeof(indices)/sizeof(int) = 6`
as the two count arguments), finalize, seed with 1337, run Phase A, and
destroy the scene.  Phase B makes no external call and so contributes no
event.  `h` is the handle the engine returned from `InitScene` and
`meshId` the id returned from `AddTriangleMesh`. -/
def driverTrace {Handle : Type} (h : Handle) (meshId : ℤ) (RM : ℕ)
    (s : ℕ → ℕ) : List (Event Handle) :=
  [Event.initScene h,
   Event.addTriangleMesh h vertexBuffer vertexBuffer.length
     indexBuffer indexBuffer.length meshId,
   Event.finalizeScene h,
   Event.srand 1337]
  ++ (phaseA h RM s numTrials 0).1
  ++ [Event.deleteScene h]

/-- The three values `main` prints: the per-trial averages of the two
phases and the reported pure cost. -/
structure Report where
  totalMsPerTrial : ℤ
  rngMsPerTrial : ℤ
  pureMsPerTrial : ℤ
deriving DecidableEq, Repr

/-- The report computation of `main`: `elapsedMs / numTrials` for each
phase (C++ `long long` division truncates toward zero, i.e. `Int.tdiv`),
then `totalCost - rngCost`, printed as is. -/
def runReport (elapsedA elapsedB : ℤ) : Report :=
  let totalCost := Int.tdiv elapsedA (numTrials : ℤ)
  let rngCost := Int.tdiv elapsedB (numTrials : ℤ)
  { totalMsPerTrial := totalCost
    rngMsPerTrial := rngCost
    pureMsPerTrial := totalCost - rngCost }

/-- The observable outcome of one run of `main`: the external call trace,
the vector pairs Phase B generated, the final draw counter after both
phases, the printed report, and the process exit code.  The elapsed
milliseconds `elapsedA`, `elapsedB` of the two phases are external inputs
(wall-clock nondeterminism). -/
structure RunResult (Handle : Type) where
  trace : List (Event Handle)
  pairsB : List (Vector3 × Vector3)
  drawsConsumed : ℕ
  report : Report
  exitCode : ℤ

/-- The function `main` as a function of its external inputs: the handle and mesh id the
engine returns, the RNG model, and the two wall-clock elapsed readings. -/
def runBenchmark {Handle : Type} (h : Handle) (meshId : ℤ) (RM : ℕ)
    (s : ℕ → ℕ) (elapsedA elapsedB : ℤ) : RunResult Handle :=
  let a := phaseA h RM s numTrials 0
  { trace := driverTrace h meshId RM s
    pairsB := (phaseB RM s numTrials a.2).1
    drawsConsumed := (phaseB RM s numTrials a.2).2
    report := runReport elapsedA elapsedB
    exitCode := 0 }

/-- Is the event a `TraceSingle` call? -/
def Event.isTraceCall {Handle : Type} : Event Handle → Bool
  | .traceSingle _ _ _ => true
  | _ => false

/-- Is the event an `InitScene` call? -/
def Event.isInitCall {Handle : Type} : Event Handle → Bool
  | .initScene _ => true
  | _ => false

/-- Is the event an `AddTriangleMesh` call? -/
def Event.isAddMeshCall {Handle : Type} : Event Handle → Bool
  | .addTriangleMesh _ _ _ _ _ _ => true
  | _ => false

/-- Is the event a `FinalizeScene` call? -/
def Event.isFinalizeCall {Handle : Type} : Event Handle → Bool
  | .finalizeScene _ => true
  | _ => false

/-- Is the event a `DeleteScene` call? -/
def Event.isDeleteCall {Handle : Type} : Event Handle → Bool
  | .deleteScene _ => true
  | _ => false

/-- The scene handle an event passes to (or, for `initScene`, receives
from) the engine; `srand` is a C-library call and carries no handle. -/
def Event.handleOf {Handle : Type} : Event Handle → Option Handle
  | .initScene r => some r
  | .addTriangleMesh h _ _ _ _ _ => some h
  | .finalizeScene h => some h
  | .srand _ => none
  | .traceSingle h _ _ => some h
  | .deleteScene h => some h

/-- The ray carried by a `traceSingle` event, if any. -/
def Event.rayOf {Handle : Type} : Event Handle → Option Ray
  | .traceSingle _ r _ => some r
  | _ => none

/-- The (origin, direction) pair of a `traceSingle` event, if any. -/
def Event.rayPairOf {Handle : Type} : Event Handle → Option (Vector3 × Vector3)
  | .traceSingle _ r _ => some (r.org, r.dir)
  | _ => none

/-- The sequence of rays a trace passes to `TraceSingle`, in order. -/
def raysOf {Handle : Type} (T : List (Event Handle)) : List Ray :=
  T.filterMap Event.rayOf

/-- The (origin, direction) pair produced by one RNG-only iteration whose
first draw has index `k`: the two vectors a ray built at `k` would use. -/
def pairAt (RM : ℕ) (s : ℕ → ℕ) (k : ℕ) : Vector3 × Vector3 :=
  let o := NextRandom3 RM s k
  let d := NextRandom3 RM s o.2
  (o.1, d.1)

/-- Closed form of the Phase A event list: `n` consecutive iterations
starting at draw counter `k`. -/
def traceEvts {Handle : Type} (h : Handle) (RM : ℕ) (s : ℕ → ℕ)
    (k n : ℕ) : List (Event Handle) :=
  (List.range n).map (fun j => Event.traceSingle h (rayAt RM s (k + 6 * j)) Hit.fresh)

/-- Closed form of the Phase B pair list: `n` consecutive iterations
starting at draw counter `k`. -/
def pairList (RM : ℕ) (s : ℕ → ℕ) (k n : ℕ) : List (Vector3 × Vector3) :=
  (List.range n).map (fun j => pairAt RM s (k + 6 * j))

/-- The four events `main` emits before the timed Phase A loop. -/
def preEvents {Handle : Type} (h : Handle) (meshId : ℤ) : List (Event Handle) :=
  [Event.initScene h,
   Event.addTriangleMesh h vertexBuffer 12 indexBuffer 6 meshId,
   Event.finalizeScene h,
   Event.srand 1337]

/-- Total number of tracing queries in one run. -/
def totalRays : ℕ := numTrials * raysPerTrial

lemma traceEvts_succ {Handle : Type} (h : Handle) (RM : ℕ) (s : ℕ → ℕ)
    (k n : ℕ) :
    traceEvts h RM s k (n + 1)
      = Event.traceSingle h (rayAt RM s k) Hit.fresh :: traceEvts h RM s (k + 6) n := by
  have hkey : ∀ j : ℕ, k + 6 * (j + 1) = k + 6 + 6 * j := fun j => by ring
  unfold traceEvts
  rw [List.range_succ_eq_map, List.map_cons, List.map_map]
  refine congrArg₂ _ (by norm_num) (List.map_congr_left fun j _ => ?_)
  simp only [Function.comp_apply, Nat.succ_eq_add_one]
  rw [hkey j]

lemma traceEvts_add {Handle : Type} (h : Handle) (RM : ℕ) (s : ℕ → ℕ)
    (k a b : ℕ) :
    traceEvts h RM s k (a + b)
      = traceEvts h RM s k a ++ traceEvts h RM s (k + 6 * a) b := by
  have hkey : ∀ j : ℕ, k + 6 * (a + j) = k + 6 * a + 6 * j := fun j => by ring
  unfold traceEvts
  rw [List.range_add, List.map_append, List.map_map]
  refine congrArg₂ _ rfl (List.map_congr_left fun j _ => ?_)
  simp only [Function.comp_apply]
  rw [hkey j]

lemma pairList_succ (RM : ℕ) (s : ℕ → ℕ) (k n : ℕ) :
    pairList RM s k (n + 1) = pairAt RM s k :: pairList RM s (k + 6) n := by
  have hkey : ∀ j : ℕ, k + 6 * (j + 1) = k + 6 + 6 * j := fun j => by ring
  unfold pairList
  rw [List.range_succ_eq_map, List.map_cons, List.map_map]
  refine congrArg₂ _ (by norm_num) (List.map_congr_left fun j _ => ?_)
  simp only [Function.comp_apply, Nat.succ_eq_add_one]
  rw [hkey j]

lemma pairList_add (RM : ℕ) (s : ℕ → ℕ) (k a b : ℕ) :
    pairList RM s k (a + b) = pairList RM s k a ++ pairList RM s (k + 6 * a) b := by
  have hkey : ∀ j : ℕ, k + 6 * (a + j) = k + 6 * a + 6 * j := fun j => by ring
  unfold pairList
  rw [List.range_add, List.map_append, List.map_map]
  refine congrArg₂ _ rfl (List.map_congr_left fun j _ => ?_)
  simp only [Function.comp_apply]
  rw [hkey j]

lemma innerLoopA_eq {Handle : Type} (h : Handle) (RM : ℕ) (s : ℕ → ℕ) :
    ∀ n k, innerLoopA h RM s n k = (traceEvts h RM s k n, k + 6 * n) := by
  intro n
  induction n with
  | zero => intro k; simp [innerLoopA, traceEvts]
  | succ n ih =>
      intro k
      have h6 : k + 3 + 3 = k + 6 := by omega
      simp only [innerLoopA, NextRandom3, ih, h6, traceEvts_succ, rayAt,
        Prod.mk.injEq]
      exact ⟨by trivial, by omega⟩

lemma innerLoopB_eq (RM : ℕ) (s : ℕ → ℕ) :
    ∀ n k, innerLoopB RM s n k = (pairList RM s k n, k + 6 * n) := by
  intro n
  induction n with
  | zero => intro k; simp [innerLoopB, pairList]
  | succ n ih =>
      intro k
      have h6 : k + 3 + 3 = k + 6 := by omega
      simp only [innerLoopB, NextRandom3, ih, h6, pairList_succ, pairAt,
        Prod.mk.injEq]
      exact ⟨by trivial, by omega⟩

lemma phaseA_eq {Handle : Type} (h : Handle) (RM : ℕ) (s : ℕ → ℕ) :
    ∀ t k, phaseA h RM s t k
      = (traceEvts h RM s k (t * raysPerTrial), k + 6 * (t * raysPerTrial)) := by
  intro t
  induction t with
  | zero => intro k; simp [phaseA, traceEvts]
  | succ t ih =>
      intro k
      have hsplit : (t + 1) * raysPerTrial = raysPerTrial + t * raysPerTrial := by
        rw [Nat.succ_mul, Nat.add_comm]
      rw [phaseA]
      simp only [innerLoopA_eq, ih]
      rw [hsplit, traceEvts_add]
      refine congrArg₂ Prod.mk rfl ?_
      ring

lemma phaseB_eq (RM : ℕ) (s : ℕ → ℕ) :
    ∀ t k, phaseB RM s t k
      = (pairList RM s k (t * raysPerTrial), k + 6 * (t * raysPerTrial)) := by
  intro t
  induction t with
  | zero => intro k; simp [phaseB, pairList]
  | succ t ih =>
      intro k
      have hsplit : (t + 1) * raysPerTrial = raysPerTrial + t * raysPerTrial := by
        rw [Nat.succ_mul, Nat.add_comm]
      rw [phaseB]
      simp only [innerLoopB_eq, ih]
      rw [hsplit, pairList_add]
      refine congrArg₂ Prod.mk rfl ?_
      ring

lemma totalRays_eq : totalRays = 10000000 := by
  norm_num [totalRays, numTrials, raysPerTrial]

lemma driverTrace_eq {Handle : Type} (h : Handle) (m : ℤ) (RM : ℕ)
    (s : ℕ → ℕ) :
    driverTrace h m RM s
      = preEvents h m ++ traceEvts h RM s 0 totalRays ++ [Event.deleteScene h] := by
  have hv : vertexBuffer.length = 12 := rfl
  have hi : indexBuffer.length = 6 := rfl
  unfold driverTrace preEvents totalRays
  rw [phaseA_eq, hv, hi]

lemma traceEvts_length {Handle : Type} (h : Handle) (RM : ℕ) (s : ℕ → ℕ)
    (k n : ℕ) : (traceEvts h RM s k n).length = n := by
  simp [traceEvts]

lemma driverTrace_length {Handle : Type} (h : Handle) (m : ℤ) (RM : ℕ)
    (s : ℕ → ℕ) : (driverTrace h m RM s).length = totalRays + 5 := by
  rw [driverTrace_eq]
  simp only [List.length_append, traceEvts_length, preEvents, List.length_cons,
    List.length_nil]
  omega

lemma driverTrace_getElem_lt4 {Handle : Type} (h : Handle) (m : ℤ) (RM : ℕ)
    (s : ℕ → ℕ) (i : ℕ) (hi : i < 4) :
    (driverTrace h m RM s)[i]? = (preEvents h m)[i]? := by
  rw [driverTrace_eq, List.getElem?_append, List.getElem?_append]
  have h1 : i < (preEvents h m).length := by simp [preEvents]; omega
  have h2 : i < (preEvents h m ++ traceEvts h RM s 0 totalRays).length := by
    simp only [List.length_append]; omega
  rw [if_pos h2, if_pos h1]

lemma driverTrace_getElem_mid {Handle : Type} (h : Handle) (m : ℤ) (RM : ℕ)
    (s : ℕ → ℕ) (n : ℕ) (hn : n < totalRays) :
    (driverTrace h m RM s)[4 + n]?
      = some (Event.traceSingle h (rayAt RM s (6 * n)) Hit.fresh) := by
  rw [driverTrace_eq, List.getElem?_append, List.getElem?_append]
  have hpre : (preEvents h m).length = 4 := by simp [preEvents]
  have h2 : 4 + n < (preEvents h m ++ traceEvts h RM s 0 totalRays).length := by
    simp only [List.length_append, traceEvts_length, hpre]; omega
  rw [if_pos h2, if_neg (by omega : ¬ 4 + n < (preEvents h m).length)]
  rw [hpre]
  have h3 : 4 + n - 4 = n := by omega
  rw [h3]
  unfold traceEvts
  rw [List.getElem?_map, List.getElem?_range hn]
  simp

lemma driverTrace_getElem_last {Handle : Type} (h : Handle) (m : ℤ) (RM : ℕ)
    (s : ℕ → ℕ) :
    (driverTrace h m RM s)[4 + totalRays]? = some (Event.deleteScene h) := by
  rw [driverTrace_eq, List.getElem?_append]
  have hpre : (preEvents h m).length = 4 := by simp [preEvents]
  have hlen : (preEvents h m ++ traceEvts h RM s 0 totalRays).length = 4 + totalRays := by
    simp only [List.length_append, traceEvts_length, hpre]
  rw [if_neg (by omega : ¬ 4 + totalRays < (preEvents h m ++ traceEvts h RM s 0 totalRays).length)]
  rw [hlen]
  simp

/-- Region classification: an event found at position `i` of the trace is
one of the four setup events (`i < 4`), a Phase A tracing call
(`4 ≤ i < 4 + totalRays`), or the final `DeleteScene` (`i = 4 + totalRays`). -/
lemma driverTrace_getElem_cases {Handle : Type} (h : Handle) (m : ℤ) (RM : ℕ)
    (s : ℕ → ℕ) (i : ℕ) (e : Event Handle)
    (he : (driverTrace h m RM s)[i]? = some e) :
    (i < 4 ∧ (preEvents h m)[i]? = some e)
    ∨ (4 ≤ i ∧ i < 4 + totalRays
        ∧ e = Event.traceSingle h (rayAt RM s (6 * (i - 4))) Hit.fresh)
    ∨ (i = 4 + totalRays ∧ e = Event.deleteScene h) := by
  have hbound : i < totalRays + 5 := by
    by_contra hcon
    rw [List.getElem?_eq_none] at he
    · exact Option.noConfusion he
    · rw [driverTrace_length]; omega
  rcases lt_or_le i 4 with h4 | h4
  · exact Or.inl ⟨h4, by rw [← driverTrace_getElem_lt4 h m RM s i h4]; exact he⟩
  · rcases lt_or_le i (4 + totalRays) with hmid | hlast
    · refine Or.inr (Or.inl ⟨h4, hmid, ?_⟩)
      have hn : i - 4 < totalRays := by omega
      have := driverTrace_getElem_mid h m RM s (i - 4) hn
      rw [(by omega : 4 + (i - 4) = i)] at this
      rw [this] at he
      exact (Option.some.injEq _ _ ▸ he).symm
    · have hieq : i = 4 + totalRays := by omega
      refine Or.inr (Or.inr ⟨hieq, ?_⟩)
      have := driverTrace_getElem_last h m RM s
      rw [← hieq] at this
      rw [this] at he
      exact (Option.some.injEq _ _ ▸ he).symm

/-- Membership classification for the trace. -/
lemma mem_driverTrace_cases {Handle : Type} {h : Handle} {m : ℤ} {RM : ℕ}
    {s : ℕ → ℕ} {e : Event Handle} (he : e ∈ driverTrace h m RM s) :
    e = Event.initScene h
    ∨ e = Event.addTriangleMesh h vertexBuffer 12 indexBuffer 6 m
    ∨ e = Event.finalizeScene h
    ∨ e = Event.srand 1337
    ∨ (∃ n, n < totalRays ∧ e = Event.traceSingle h (rayAt RM s (6 * n)) Hit.fresh)
    ∨ e = Event.deleteScene h := by
  rw [driverTrace_eq] at he
  rcases List.mem_append.mp he with hpm | hdel
  · rcases List.mem_append.mp hpm with hpre | hmid
    · simp only [preEvents, List.mem_cons, List.not_mem_nil, or_false] at hpre
      rcases hpre with h1 | h2 | h3 | h4
      · exact Or.inl h1
      · exact Or.inr (Or.inl h2)
      · exact Or.inr (Or.inr (Or.inl h3))
      · exact Or.inr (Or.inr (Or.inr (Or.inl h4)))
    · unfold traceEvts at hmid
      obtain ⟨n, hn, hev⟩ := List.mem_map.mp hmid
      refine Or.inr (Or.inr (Or.inr (Or.inr (Or.inl ⟨n, List.mem_range.mp hn, ?_⟩))))
      rw [← hev, Nat.zero_add]
  · exact Or.inr (Or.inr (Or.inr (Or.inr (Or.inr (List.mem_singleton.mp hdel)))))

/-- The sampled rays of a run, in order: `raysOf` of the trace is the
sequence of `rayAt` values at draw counters `0, 6, 12, …`. -/
lemma raysOf_driverTrace {Handle : Type} (h : Handle) (m : ℤ) (RM : ℕ)
    (s : ℕ → ℕ) :
    raysOf (driverTrace h m RM s)
      = (List.range totalRays).map (fun n => rayAt RM s (6 * n)) := by
  rw [driverTrace_eq]
  unfold raysOf
  rw [List.filterMap_append, List.filterMap_append]
  have hpre : List.filterMap Event.rayOf (preEvents h m) = [] := by
    simp [preEvents, Event.rayOf]
  have hdel : List.filterMap Event.rayOf [Event.deleteScene h] = [] := by
    simp [Event.rayOf]
  rw [hpre, hdel, List.nil_append, List.append_nil]
  unfold traceEvts
  rw [List.filterMap_map]
  have hcomp : (Event.rayOf ∘ fun j => Event.traceSingle h (rayAt RM s (0 + 6 * j)) Hit.fresh)
      = some ∘ (fun j => rayAt RM s (6 * j)) := by
    funext j
    simp only [Function.comp_apply, Event.rayOf]
    rw [Nat.zero_add]
  rw [hcomp, List.filterMap_eq_map]

lemma countP_traceEvts_false {Handle : Type} (h : Handle) (RM : ℕ)
    (s : ℕ → ℕ) (k n : ℕ) {p : Event Handle → Bool}
    (hp : ∀ (hh : Handle) (r : Ray) (ht : Hit), p (Event.traceSingle hh r ht) = false) :
    (traceEvts h RM s k n).countP p = 0 := by
  refine List.countP_eq_zero.mpr fun e he => ?_
  unfold traceEvts at he
  obtain ⟨j, _, hev⟩ := List.mem_map.mp he
  rw [← hev, hp]
  exact Bool.false_ne_true

lemma countP_traceEvts_true {Handle : Type} (h : Handle) (RM : ℕ)
    (s : ℕ → ℕ) (k n : ℕ) {p : Event Handle → Bool}
    (hp : ∀ (hh : Handle) (r : Ray) (ht : Hit), p (Event.traceSingle hh r ht) = true) :
    (traceEvts h RM s k n).countP p = n := by
  have hlen := traceEvts_length h RM s k n
  conv_rhs => rw [← hlen]
  refine List.countP_eq_length.mpr fun e he => ?_
  unfold traceEvts at he
  obtain ⟨j, _, hev⟩ := List.mem_map.mp he
  rw [← hev, hp]

lemma preEvents_getElem_cases {Handle : Type} (h : Handle) (m : ℤ)
    (i : ℕ) (e : Event Handle) (he : (preEvents h m)[i]? = some e) :
    (i = 0 ∧ e = Event.initScene h)
    ∨ (i = 1 ∧ e = Event.addTriangleMesh h vertexBuffer 12 indexBuffer 6 m)
    ∨ (i = 2 ∧ e = Event.finalizeScene h)
    ∨ (i = 3 ∧ e = Event.srand 1337) := by
  have hlt : i < 4 := by
    by_contra hge
    rw [List.getElem?_eq_none (by simp [preEvents]; omega)] at he
    exact Option.noConfusion he
  interval_cases i <;>
    simp only [preEvents, List.getElem?_cons_zero, List.getElem?_cons_succ,
      Option.some.injEq] at he <;>
    simp [← he]

/-- A trace call can only sit in the Phase A region of the trace. -/
lemma traceCall_position {Handle : Type} (h : Handle) (m : ℤ) (RM : ℕ)
    (s : ℕ → ℕ) {i : ℕ} {e : Event Handle}
    (he : (driverTrace h m RM s)[i]? = some e) (ht : e.isTraceCall = true) :
    4 ≤ i ∧ i < 4 + totalRays := by
  rcases driverTrace_getElem_cases h m RM s i e he with
    ⟨h4, hpre⟩ | ⟨h4, hmid, _⟩ | ⟨hlast, hdel⟩
  · exfalso
    rcases preEvents_getElem_cases h m i e hpre with
      ⟨_, rfl⟩ | ⟨_, rfl⟩ | ⟨_, rfl⟩ | ⟨_, rfl⟩ <;>
      exact Bool.noConfusion ht
  · exact ⟨h4, hmid⟩
  · exfalso
    rw [hdel] at ht
    exact Bool.noConfusion ht

/-- A delete call sits only at the last position of the trace. -/
lemma deleteCall_position {Handle : Type} (h : Handle) (m : ℤ) (RM : ℕ)
    (s : ℕ → ℕ) {i : ℕ} {e : Event Handle}
    (he : (driverTrace h m RM s)[i]? = some e) (hd : e.isDeleteCall = true) :
    i = 4 + totalRays := by
  rcases driverTrace_getElem_cases h m RM s i e he with
    ⟨h4, hpre⟩ | ⟨h4, hmid, hev⟩ | ⟨hlast, _⟩
  · exfalso
    rcases preEvents_getElem_cases h m i e hpre with
      ⟨_, rfl⟩ | ⟨_, rfl⟩ | ⟨_, rfl⟩ | ⟨_, rfl⟩ <;>
      exact Bool.noConfusion hd
  · exfalso
    rw [hev] at hd
    exact Bool.noConfusion hd
  · exact hlast

/-- C1: `run_benchmark` reports the pure tracing cost as the subtraction
`pureCost = totalCost - rngCost` of the two per-trial averages, and the
value is reported unmodified even when it is negative — no clamping to
zero: e.g. elapsed readings of 0 ms (Phase A) and 1000 ms (Phase B) are
reported as `-100`. -/
theorem pureCost_is_unclamped_subtraction :
    (∀ elapsedA elapsedB : ℤ,
      (runReport elapsedA elapsedB).pureMsPerTrial
        = (runReport elapsedA elapsedB).totalMsPerTrial
          - (runReport elapsedA elapsedB).rngMsPerTrial)
    ∧ (runReport 0 1000).pureMsPerTrial = -100
    ∧ (runReport 0 1000).pureMsPerTrial < 0 := by
  refine ⟨fun a b => rfl, by decide, by decide⟩

/-- C3, counterexample to the claim as stated: with `RAND_MAX = 32767`
(the smallest value the C standard permits) and a draw stream returning
`RAND_MAX` — a value within the generator's contractual range
`0 ≤ rand() ≤ RAND_MAX` — the x component of the sampled vector equals 1,
so it is not strictly less than 1. -/
theorem component_not_lt_one_at_max_draw :
    (NextRandom3 32767 (fun _ => 32767) 0).1.x = 1
    ∧ ¬ ((NextRandom3 32767 (fun _ => 32767) 0).1.x < 1)
    ∧ (fun _ => 32767 : ℕ → ℕ) 0 ≤ 32767 := by
  refine ⟨by norm_num [NextRandom3], by norm_num [NextRandom3], by norm_num⟩

/-- C3, amended: every component of a sampled `Vector3` lies in the closed
interval [0, 1] — nonnegative and at most 1; the upper bound 1 is
attainable (a draw equal to `RAND_MAX` reaches it), so the interval is
closed rather than the half-open [0, 1). -/
theorem components_within_closed_unit_interval (RM : ℕ) (s : ℕ → ℕ) (k : ℕ)
    (hRM : 0 < RM) (hs : ∀ n, s n ≤ RM) :
    (0 ≤ (NextRandom3 RM s k).1.x ∧ (NextRandom3 RM s k).1.x ≤ 1)
    ∧ (0 ≤ (NextRandom3 RM s k).1.y ∧ (NextRandom3 RM s k).1.y ≤ 1)
    ∧ (0 ≤ (NextRandom3 RM s k).1.z ∧ (NextRandom3 RM s k).1.z ≤ 1) := by
  have hRMq : (0 : ℚ) < (RM : ℚ) := by exact_mod_cast hRM
  have comp : ∀ n : ℕ, 0 ≤ (s n : ℚ) / (RM : ℚ) ∧ (s n : ℚ) / (RM : ℚ) ≤ 1 := by
    intro n
    constructor
    · exact div_nonneg (by positivity) (le_of_lt hRMq)
    · rw [div_le_one hRMq]
      exact_mod_cast hs n
  exact ⟨comp k, comp (k + 1), comp (k + 2)⟩

theorem components_within_closed_unit_interval_witness :
    (0 < 1 ∧ ∀ n : ℕ, (fun _ => 0 : ℕ → ℕ) n ≤ 1)
    ∧ ((0 ≤ (NextRandom3 1 (fun _ => 0) 0).1.x ∧ (NextRandom3 1 (fun _ => 0) 0).1.x ≤ 1)
      ∧ (0 ≤ (NextRandom3 1 (fun _ => 0) 0).1.y ∧ (NextRandom3 1 (fun _ => 0) 0).1.y ≤ 1)
      ∧ (0 ≤ (NextRandom3 1 (fun _ => 0) 0).1.z ∧ (NextRandom3 1 (fun _ => 0) 0).1.z ≤ 1)) :=
  ⟨⟨by norm_num, fun n => by norm_num⟩,
    components_within_closed_unit_interval 1 (fun _ => 0) 0 (by norm_num) (fun n => by norm_num)⟩

/-- C9: the run always finishes with process exit code 0; `runBenchmark`
is total in all its external inputs and there is no other exit path. -/
theorem exit_code_always_zero {Handle : Type} (h : Handle) (m : ℤ) (RM : ℕ)
    (s : ℕ → ℕ) (elapsedA elapsedB : ℤ) :
    (runBenchmark h m RM s elapsedA elapsedB).exitCode = 0 := rfl

/-- C10: each reported per-trial average is the whole-phase elapsed
milliseconds divided by `numTrials` with C++ integer division (truncation
toward zero, `Int.tdiv`); for nonnegative elapsed readings the reported
average `a` satisfies `10 * a ≤ e < 10 * a + 10`, i.e. the
sub-millisecond-per-trial remainder is discarded; 19 ms over 10 trials
reports 1 ms, not the nearest 2 ms. -/
theorem averages_are_truncating_division (elapsedA elapsedB : ℤ)
    (hA : 0 ≤ elapsedA) (hB : 0 ≤ elapsedB) :
    ((runReport elapsedA elapsedB).totalMsPerTrial
        = Int.tdiv elapsedA (numTrials : ℤ)
      ∧ (runReport elapsedA elapsedB).rngMsPerTrial
        = Int.tdiv elapsedB (numTrials : ℤ))
    ∧ ((numTrials : ℤ) * (runReport elapsedA elapsedB).totalMsPerTrial ≤ elapsedA
      ∧ elapsedA < (numTrials : ℤ) * (runReport elapsedA elapsedB).totalMsPerTrial
          + (numTrials : ℤ))
    ∧ ((numTrials : ℤ) * (runReport elapsedA elapsedB).rngMsPerTrial ≤ elapsedB
      ∧ elapsedB < (numTrials : ℤ) * (runReport elapsedA elapsedB).rngMsPerTrial
          + (numTrials : ℤ))
    ∧ (runReport 19 0).totalMsPerTrial = 1 := by
  have htot : (runReport elapsedA elapsedB).totalMsPerTrial
      = Int.tdiv elapsedA (numTrials : ℤ) := rfl
  have hrng : (runReport elapsedA elapsedB).rngMsPerTrial
      = Int.tdiv elapsedB (numTrials : ℤ) := rfl
  have htdA : Int.tdiv elapsedA (numTrials : ℤ) = elapsedA / (numTrials : ℤ) :=
    Int.tdiv_eq_ediv hA (by norm_num [numTrials])
  have htdB : Int.tdiv elapsedB (numTrials : ℤ) = elapsedB / (numTrials : ℤ) :=
    Int.tdiv_eq_ediv hB (by norm_num [numTrials])
  have hnum : (numTrials : ℤ) = 10 := by norm_num [numTrials]
  refine ⟨⟨htot, hrng⟩, ?_, ?_, by decide⟩
  · rw [htot, htdA, hnum]
    omega
  · rw [hrng, htdB, hnum]
    omega

theorem averages_are_truncating_division_witness :
    ((0 : ℤ) ≤ 19 ∧ (0 : ℤ) ≤ 0)
    ∧ (runReport 19 0).totalMsPerTrial = 1 :=
  ⟨⟨by decide, by decide⟩, (averages_are_truncating_division 19 0 (by decide) (by decide)).2.2.2⟩

/-- C2: the driver seeds the generator with the fixed literal 1337 before
the first tracing call (the `srand 1337` event sits at position 3, every
trace call at a position beyond 3), and — since the seeded generator is a
deterministic function of its seed — any two runs of Phase A whose draw
streams come from seeding with 1337 sample the identical sequence of rays
(origins and directions, in order), regardless of the handle and mesh id
the engine happened to return. -/
theorem seeded_before_tracing_and_rays_reproducible {H1 H2 : Type}
    (h1 : H1) (h2 : H2) (m1 m2 : ℤ) (RM : ℕ) (randOfSeed : ℤ → ℕ → ℕ)
    (s1 s2 : ℕ → ℕ) (hs1 : s1 = randOfSeed 1337) (hs2 : s2 = randOfSeed 1337) :
    ((driverTrace h1 m1 RM s1)[3]? = some (Event.srand 1337)
      ∧ ∀ (i : ℕ) (e : Event H1), (driverTrace h1 m1 RM s1)[i]? = some e →
          e.isTraceCall = true → 3 < i)
    ∧ raysOf (driverTrace h1 m1 RM s1) = raysOf (driverTrace h2 m2 RM s2) := by
  refine ⟨⟨?_, ?_⟩, ?_⟩
  · rw [driverTrace_getElem_lt4 h1 m1 RM s1 3 (by omega)]
    rfl
  · intro i e he ht
    have := traceCall_position h1 m1 RM s1 he ht
    omega
  · rw [raysOf_driverTrace, raysOf_driverTrace, hs1, hs2]

theorem seeded_before_tracing_and_rays_reproducible_witness :
    (((fun _ => 0 : ℕ → ℕ) = (fun _ _ => 0 : ℤ → ℕ → ℕ) 1337)
      ∧ ((fun _ => 0 : ℕ → ℕ) = (fun _ _ => 0 : ℤ → ℕ → ℕ) 1337))
    ∧ raysOf (driverTrace (0 : ℕ) 0 32767 (fun _ => 0))
        = raysOf (driverTrace (1 : ℕ) 5 32767 (fun _ => 0)) :=
  ⟨⟨rfl, rfl⟩,
    (seeded_before_tracing_and_rays_reproducible (0 : ℕ) (1 : ℕ) 0 5 32767
      (fun _ _ => 0) (fun _ => 0) (fun _ => 0) rfl rfl).2⟩

/-- C4, counterexample to the claim as stated: the count argument the
driver passes alongside the vertex buffer is `sizeof(vertices) /
sizeof(float) = 12`, the number of floats in the buffer — not the vertex
count of the registered quad, which is 4. -/
theorem addMesh_count_is_float_count_not_vertex_count :
    (driverTrace (0 : ℕ) 0 32767 (fun _ => 0))[1]?
      = some (Event.addTriangleMesh 0 vertexBuffer 12 indexBuffer 6 0)
    ∧ vertexBuffer.length / 3 = 4
    ∧ (12 : ℕ) ≠ 4 := by
  refine ⟨?_, by norm_num [vertexBuffer], by norm_num⟩
  rw [driverTrace_getElem_lt4 (0 : ℕ) 0 32767 (fun _ => 0) 1 (by omega)]
  rfl

/-- C4, amended: the single mesh-registration call receives the scene
handle, the flat float vertex buffer describing the quad's 4 vertices
(3 floats per vertex, 12 floats) together with the buffer's float count
12, and the flat int index buffer of the 2 triangles (3 indices per
triangle) together with its index count 6; every registration event in the
trace carries exactly the literal initial buffers — the driver never
passes modified arrays. -/
theorem addMesh_registers_quad_with_element_counts {Handle : Type}
    (h : Handle) (m : ℤ) (RM : ℕ) (s : ℕ → ℕ) :
    (driverTrace h m RM s).countP Event.isAddMeshCall = 1
    ∧ (driverTrace h m RM s)[1]?
        = some (Event.addTriangleMesh h vertexBuffer 12 indexBuffer 6 m)
    ∧ vertexBuffer.length = 12 ∧ vertexBuffer.length / 3 = 4
    ∧ indexBuffer.length = 6 ∧ indexBuffer.length / 3 = 2
    ∧ ∀ e ∈ driverTrace h m RM s, e.isAddMeshCall = true →
        e = Event.addTriangleMesh h vertexBuffer 12 indexBuffer 6 m := by
  refine ⟨?_, ?_, by norm_num [vertexBuffer], by norm_num [vertexBuffer],
    by norm_num [indexBuffer], by norm_num [indexBuffer], ?_⟩
  · rw [driverTrace_eq, List.countP_append, List.countP_append,
      countP_traceEvts_false h RM s 0 totalRays (fun _ _ _ => rfl)]
    simp [preEvents, List.countP_cons, Event.isAddMeshCall]
  · rw [driverTrace_getElem_lt4 h m RM s 1 (by omega)]
    rfl
  · intro e he hadd
    rcases mem_driverTrace_cases he with
      rfl | rfl | rfl | rfl | ⟨n, _, rfl⟩ | rfl <;>
      first
        | rfl
        | exact absurd hadd (by simp [Event.isAddMeshCall])

theorem addMesh_registers_quad_with_element_counts_witness :
    Event.addTriangleMesh (0 : ℕ) vertexBuffer 12 indexBuffer 6 0
        ∈ driverTrace (0 : ℕ) 0 32767 (fun _ => 0)
    ∧ (Event.addTriangleMesh (0 : ℕ) vertexBuffer 12 indexBuffer 6 0).isAddMeshCall = true
    ∧ Event.addTriangleMesh (0 : ℕ) vertexBuffer 12 indexBuffer 6 0
        = Event.addTriangleMesh (0 : ℕ) vertexBuffer 12 indexBuffer 6 0 := by
  have hmem : Event.addTriangleMesh (0 : ℕ) vertexBuffer 12 indexBuffer 6 0
      ∈ driverTrace (0 : ℕ) 0 32767 (fun _ => 0) := by
    rw [driverTrace_eq]
    exact List.mem_append_left _ (List.mem_append_left _ (by
      simp [preEvents]))
  exact ⟨hmem, rfl,
    (addMesh_registers_quad_with_element_counts (0 : ℕ) 0 32767 (fun _ => 0)).2.2.2.2.2.2
      _ hmem rfl⟩

lemma pairList_length (RM : ℕ) (s : ℕ → ℕ) (k n : ℕ) :
    (pairList RM s k n).length = n := by
  simp [pairList]

lemma filterMap_rayPairOf_traceEvts {Handle : Type} (h : Handle) (RM : ℕ)
    (s : ℕ → ℕ) (k n : ℕ) :
    (traceEvts h RM s k n).filterMap Event.rayPairOf = pairList RM s k n := by
  unfold traceEvts pairList
  rw [List.filterMap_map]
  have hcomp : (Event.rayPairOf ∘ fun j => Event.traceSingle h (rayAt RM s (k + 6 * j)) Hit.fresh)
      = some ∘ (fun j => pairAt RM s (k + 6 * j)) := by
    funext j
    rfl
  rw [hcomp, List.filterMap_eq_map]

/-- C5: over one run exactly one scene creation and exactly one scene
destruction occur — the trace starts with the creation, ends with the
destruction — and the handle returned by creation is the one carried by
every handle-taking call in between (`srand`, a C-library call, carries no
handle). -/
theorem scene_lifecycle_single_handle {Handle : Type} (h : Handle) (m : ℤ)
    (RM : ℕ) (s : ℕ → ℕ) :
    (driverTrace h m RM s).countP Event.isInitCall = 1
    ∧ (driverTrace h m RM s).countP Event.isDeleteCall = 1
    ∧ (driverTrace h m RM s).head? = some (Event.initScene h)
    ∧ (driverTrace h m RM s).getLast? = some (Event.deleteScene h)
    ∧ ∀ e ∈ driverTrace h m RM s, e.handleOf = none ∨ e.handleOf = some h := by
  refine ⟨?_, ?_, ?_, ?_, ?_⟩
  · rw [driverTrace_eq, List.countP_append, List.countP_append,
      countP_traceEvts_false h RM s 0 totalRays (fun _ _ _ => rfl)]
    simp [preEvents, List.countP_cons, Event.isInitCall]
  · rw [driverTrace_eq, List.countP_append, List.countP_append,
      countP_traceEvts_false h RM s 0 totalRays (fun _ _ _ => rfl)]
    simp [preEvents, List.countP_cons, Event.isDeleteCall]
  · rw [driverTrace_eq]
    rfl
  · rw [driverTrace_eq, List.getLast?_concat]
  · intro e he
    rcases mem_driverTrace_cases he with
      rfl | rfl | rfl | rfl | ⟨n, _, rfl⟩ | rfl <;>
      simp [Event.handleOf]

theorem scene_lifecycle_single_handle_witness :
    Event.initScene (0 : ℕ) ∈ driverTrace (0 : ℕ) 0 32767 (fun _ => 0)
    ∧ ((Event.initScene (0 : ℕ)).handleOf = none
      ∨ (Event.initScene (0 : ℕ)).handleOf = some 0) := by
  have hmem : Event.initScene (0 : ℕ) ∈ driverTrace (0 : ℕ) 0 32767 (fun _ => 0) := by
    rw [driverTrace_eq]
    exact List.mem_append_left _ (List.mem_append_left _ (by simp [preEvents]))
  exact ⟨hmem,
    (scene_lifecycle_single_handle (0 : ℕ) 0 32767 (fun _ => 0)).2.2.2.2 _ hmem⟩

/-- C6: in the driver's sequence of external calls, every single-ray trace
call occurs strictly after the finalize-scene call and strictly before the
destroy-scene call. -/
theorem trace_calls_after_finalize_before_destroy {Handle : Type}
    (h : Handle) (m : ℤ) (RM : ℕ) (s : ℕ → ℕ) :
    ∀ (i : ℕ) (e : Event Handle), (driverTrace h m RM s)[i]? = some e →
      e.isTraceCall = true →
        (∃ (j : ℕ) (f : Event Handle), j < i
          ∧ (driverTrace h m RM s)[j]? = some f ∧ f.isFinalizeCall = true)
        ∧ ∀ (j : ℕ) (f : Event Handle), (driverTrace h m RM s)[j]? = some f →
            f.isDeleteCall = true → i < j := by
  intro i e he ht
  have hreg := traceCall_position h m RM s he ht
  constructor
  · refine ⟨2, Event.finalizeScene h, by omega, ?_, rfl⟩
    rw [driverTrace_getElem_lt4 h m RM s 2 (by omega)]
    rfl
  · intro j f hf hd
    have := deleteCall_position h m RM s hf hd
    omega

theorem trace_calls_after_finalize_before_destroy_witness :
    (∃ (j : ℕ) (f : Event ℕ), j < 4
      ∧ (driverTrace (0 : ℕ) 0 32767 (fun _ => 0))[j]? = some f
      ∧ f.isFinalizeCall = true)
    ∧ ∀ (j : ℕ) (f : Event ℕ),
        (driverTrace (0 : ℕ) 0 32767 (fun _ => 0))[j]? = some f →
        f.isDeleteCall = true → 4 < j := by
  have h0 : 0 < totalRays := by rw [totalRays_eq]; omega
  have hget : (driverTrace (0 : ℕ) 0 32767 (fun _ => 0))[4]?
      = some (Event.traceSingle 0 (rayAt 32767 (fun _ => 0) 0) Hit.fresh) := by
    have := driverTrace_getElem_mid (0 : ℕ) 0 32767 (fun _ => 0) 0 h0
    simpa using this
  exact trace_calls_after_finalize_before_destroy (0 : ℕ) 0 32767 (fun _ => 0)
    4 (Event.traceSingle 0 (rayAt 32767 (fun _ => 0) 0) Hit.fresh) hget rfl

/-- C7: each Phase B inner iteration generates exactly the two random
vectors a ray needs — the (origin, direction) pairs of Phase B equal the
pairs of the rays Phase A builds from the same draw counter — and consumes
the generator identically (six draws per iteration, equal counters after
any number of iterations); Phase B runs the same `numTrials` trials of
`raysPerTrial` iterations, producing `totalRays` pairs; and the run's
trace contains exactly the `totalRays` Phase A trace calls, so Phase B
makes no call to the tracing routine. -/
theorem phaseB_mirrors_phaseA_without_tracing {Handle : Type} (h : Handle)
    (m : ℤ) (RM : ℕ) (s : ℕ → ℕ) :
    (∀ n k, (innerLoopB RM s n k).2 = (innerLoopA h RM s n k).2)
    ∧ (∀ k, (innerLoopB RM s 1 k).2 = k + 6)
    ∧ (∀ n k, (innerLoopB RM s n k).1
        = (innerLoopA h RM s n k).1.filterMap Event.rayPairOf)
    ∧ (∀ k, (phaseB RM s numTrials k).2 = k + 6 * totalRays
        ∧ (phaseA h RM s numTrials k).2 = k + 6 * totalRays
        ∧ (phaseB RM s numTrials k).1.length = totalRays)
    ∧ (driverTrace h m RM s).countP Event.isTraceCall = totalRays := by
  refine ⟨?_, ?_, ?_, ?_, ?_⟩
  · intro n k
    rw [innerLoopB_eq, innerLoopA_eq]
  · intro k
    rw [innerLoopB_eq]
  · intro n k
    rw [innerLoopB_eq, innerLoopA_eq]
    exact (filterMap_rayPairOf_traceEvts h RM s k n).symm
  · intro k
    unfold totalRays
    generalize numTrials = t
    rw [phaseB_eq, phaseA_eq]
    exact ⟨rfl, rfl, pairList_length RM s k _⟩
  · rw [driverTrace_eq, List.countP_append, List.countP_append,
      countP_traceEvts_true h RM s 0 totalRays (fun _ _ _ => rfl)]
    simp [preEvents, List.countP_cons, Event.isTraceCall]

/-- C8: the `n`-th Phase A query (0-indexed across all trials) sends a ray
constructed for that query alone: origin from draws `6n … 6n+2`, direction
from draws `6n+3 … 6n+5`, parameter field 0, together with a fresh default
`Hit` record; the six draw indices of distinct iterations are disjoint, so
no sampled value is ever reused across iterations. -/
theorem each_query_fresh_ray_and_hit {Handle : Type} (h : Handle) (m : ℤ)
    (RM : ℕ) (s : ℕ → ℕ) :
    ∀ n, n < totalRays →
      (driverTrace h m RM s)[4 + n]?
        = some (Event.traceSingle h
            { org := (NextRandom3 RM s (6 * n)).1
              dir := (NextRandom3 RM s (6 * n + 3)).1
              tparam := 0 } Hit.fresh)
      ∧ ∀ p d : ℕ, p ≠ n → 6 * n ≤ d → d < 6 * n + 6 →
          ¬ (6 * p ≤ d ∧ d < 6 * p + 6) := by
  intro n hn
  constructor
  · rw [driverTrace_getElem_mid h m RM s n hn]
    rfl
  · intro p d hpn hd1 hd2 hcon
    omega

theorem each_query_fresh_ray_and_hit_witness :
    0 < totalRays
    ∧ ((driverTrace (0 : ℕ) 0 32767 (fun _ => 0))[4 + 0]?
        = some (Event.traceSingle 0
            { org := (NextRandom3 32767 (fun _ => 0) (6 * 0)).1
              dir := (NextRandom3 32767 (fun _ => 0) (6 * 0 + 3)).1
              tparam := 0 } Hit.fresh)
      ∧ ∀ p d : ℕ, p ≠ 0 → 6 * 0 ≤ d → d < 6 * 0 + 6 →
          ¬ (6 * p ≤ d ∧ d < 6 * p + 6)) := by
  have h0 : 0 < totalRays := by rw [totalRays_eq]; omega
  exact ⟨h0, each_query_fresh_ray_and_hit (0 : ℕ) 0 32767 (fun _ => 0) 0 h0⟩

end CBench
